import Mathlib

/-!
# Verification of the Oracle-of-the-Moon reading-session engine

Shallow embedding of `src/oracle_bot.py`: the card catalog, the per-guild
deck/undo state and its operations (`get_deck`, `shuffle_deck`, `draw`,
`pull_clarifier`, `undo_draw`, `undo_and_shuffle`), the progressive-reveal
state machine of `CardRevealView.make_callback`, the composite-image
renderer's all-or-nothing slot-resolution loop, and the `/journal` command's
append path against the remote journal list.

Randomness (`random.shuffle`, `random.choice`) is modelled by passing the
shuffled list (or a reordering function) as an explicit argument, constrained
in theorems to be a permutation of what Python would shuffle.  Network
effects (image fetches, GitHub reads/writes) are modelled as explicit
function or boolean parameters.
-/

namespace Oracle

/-- The card catalog `CARDS` of `oracle_bot.py` (name, upright meaning),
in dict insertion order. -/
def CARDS : List (String × String) :=
  [ ("The Fool", "New beginnings, innocence, spontaneity, free spirit"),
    ("The Magician", "Manifestation, resourcefulness, power, inspired action"),
    ("The High Priestess", "Intuition, sacred knowledge, divine feminine, subconscious"),
    ("The Empress", "Femininity, beauty, nature, abundance, nurturing"),
    ("The Emperor", "Authority, structure, control, fatherhood"),
    ("The Lovers", "Love, harmony, relationships, values alignment"),
    ("The Chariot", "Control, willpower, success, determination"),
    ("Strength", "Courage, inner strength, patience, compassion"),
    ("The Hermit", "Soul searching, introspection, inner guidance, solitude"),
    ("Wheel of Fortune", "Good luck, karma, life cycles, destiny"),
    ("Justice", "Fairness, truth, cause and effect, law"),
    ("The Hanged Man", "Pause, surrender, letting go, new perspective"),
    ("Death", "Endings, transformation, transition, letting go"),
    ("Temperance", "Balance, moderation, patience, purpose"),
    ("The Devil", "Shadow self, attachment, addiction, restriction"),
    ("The Tower", "Sudden change, upheaval, chaos, revelation"),
    ("The Star", "Hope, faith, purpose, renewal, spirituality"),
    ("The Moon", "Illusion, fear, anxiety, subconscious, intuition"),
    ("The Sun", "Positivity, fun, warmth, success, vitality"),
    ("Judgement", "Reflection, reckoning, inner calling, absolution"),
    ("The World", "Completion, accomplishment, travel, fulfillment") ]

/-- `list(CARDS.keys())`: the card names in catalog order. -/
def catalog : List String := CARDS.map Prod.fst

/-- Per-guild deck state: `deck_state[guild_id]` together with the optional
`undo_state[guild_id]` entry (absent entry modelled as `none`). -/
structure GuildState where
  deck : List String
  undo : Option (List String)
deriving Repr, DecidableEq

/-- The undo buffer's contents, empty when the `undo_state` entry is absent. -/
def undoList (s : GuildState) : List String := s.undo.getD []

/-- `get_deck(guild_id)` on a guild with no deck yet: install a shuffled
full-catalog permutation (the shuffle result is the `perm` argument) with no
undo entry.  On an established guild, `get_deck` just returns the stored
deck and is the identity on state. -/
def get_deck_init (perm : List String) : GuildState := ⟨perm, none⟩

/-- `shuffle_deck(guild_id)`: reset the deck to a fresh shuffled full-catalog
permutation (`perm`) and delete any undo entry. -/
def shuffle_deck (perm : List String) (_s : GuildState) : GuildState := ⟨perm, none⟩

/-- `save_undo_state(guild_id, cards)`: replace the undo entry wholesale. -/
def save_undo_state (cards : List String) (s : GuildState) : GuildState :=
  { s with undo := some cards }

/-- `can_undo(guild_id)`: an undo entry exists and is non-empty. -/
def can_undo (s : GuildState) : Bool :=
  match s.undo with
  | some l => decide (0 < l.length)
  | none => false

/-- `undo_draw(guild_id)`: if undo is available, reinsert the buffered cards
at the front of the deck in their original order (`for card in
reversed(cards): deck.insert(0, card)` amounts to `cards ++ deck`), delete
the undo entry, and return the restored cards; otherwise return `[]` and
leave the state alone. -/
def undo_draw (s : GuildState) : List String × GuildState :=
  if can_undo s then
    (undoList s, ⟨undoList s ++ s.deck, none⟩)
  else ([], s)

/-- The `/draw` command's deck logic: reject counts outside `1..5`;
reshuffle first when the deck holds fewer than `count` cards (the fresh
permutation is the `perm` argument, and the reshuffle is reported in the
`Bool` component); pop `count` cards off the deck's front; replace the undo
entry with exactly the drawn cards.  Returns
`(drawn cards, new state, reshuffled?)`. -/
def draw (perm : List String) (count : Nat) (s : GuildState) :
    Option (List String × GuildState × Bool) :=
  if count < 1 ∨ 5 < count then none
  else
    let p := if s.deck.length < count then (perm, true) else (s.deck, false)
    some (p.1.take count, ⟨p.1.drop count, some (p.1.take count)⟩, p.2)

/-- The `/pull_clarifier` command's deck logic: reshuffle first when the deck
is empty (which deletes the undo entry), pop one card, then append it to the
undo buffer when `can_undo` holds and otherwise start a fresh buffer with
just this card.  Returns `(drawn card, new state, reshuffled?)`; `none`
models the unreachable `pop` from an empty post-shuffle deck. -/
def pull_clarifier (perm : List String) (s : GuildState) :
    Option (String × GuildState × Bool) :=
  let p := if s.deck.length < 1 then ((⟨perm, none⟩ : GuildState), true) else (s, false)
  match p.1.deck with
  | [] => none
  | c :: rest =>
      let s1 : GuildState := ⟨rest, p.1.undo⟩
      let s2 := if can_undo s1 then { s1 with undo := some (undoList s1 ++ [c]) }
                else save_undo_state [c] s1
      some (c, s2, p.2)

/-- The `/undo_and_shuffle` command's deck logic: reject when `can_undo`
fails; otherwise run `undo_draw` and then `random.shuffle` the resulting
deck in place (the reordering is the `shuf` argument).  Returns the restored
cards and the new state. -/
def undo_and_shuffle (shuf : List String → List String) (s : GuildState) :
    Option (List String × GuildState) :=
  if can_undo s then
    let r := undo_draw s
    some (r.1, ⟨shuf r.2.deck, r.2.undo⟩)
  else none

/-- One deck-manager operation, carrying its own randomness: `shuffle` and
`draw`-style operations carry the fresh full-catalog permutation the Python
`random.shuffle(list(CARDS.keys()))` would produce, and `undoAndShuffle`
carries the in-place reordering applied to the current deck. -/
inductive Op where
  | getDeck : Op
  | shuffle (perm : List String) : Op
  | draw (perm : List String) (count : Nat) : Op
  | drawClarifier (perm : List String) : Op
  | undo : Op
  | undoAndShuffle (shuf : List String → List String) : Op

/-- Well-formed randomness: every fresh permutation really is a permutation
of the catalog, and the in-place shuffle really reorders its input. -/
def Op.Valid : Op → Prop
  | .getDeck => True
  | .shuffle perm => perm.Perm catalog
  | .draw perm _ => perm.Perm catalog
  | .drawClarifier perm => perm.Perm catalog
  | .undo => True
  | .undoAndShuffle shuf => ∀ l, (shuf l).Perm l

/-- State transition of one operation (rejected operations leave the state
unchanged, as the Python handlers return before touching the deck). -/
def step : Op → GuildState → GuildState
  | .getDeck, s => s
  | .shuffle perm, s => shuffle_deck perm s
  | .draw perm count, s =>
      match Oracle.draw perm count s with
      | some r => r.2.1
      | none => s
  | .drawClarifier perm, s =>
      match pull_clarifier perm s with
      | some r => r.2.1
      | none => s
  | .undo, s => (undo_draw s).2
  | .undoAndShuffle shuf, s =>
      match undo_and_shuffle shuf s with
      | some r => r.2
      | none => s

/-- Run a sequence of operations. -/
def run (ops : List Op) (s : GuildState) : GuildState :=
  ops.foldl (fun t op => step op t) s

/-- The invariant the deck manager actually maintains: the deck followed by
the undo buffer is duplicate-free and, as a multiset, contained in the
catalog. -/
def deckInv (s : GuildState) : Prop :=
  (s.deck ++ undoList s).Nodup ∧
    (↑(s.deck ++ undoList s) : Multiset String) ≤ (↑catalog : Multiset String)

/-! ## Reveal state machine (`CardRevealView`) -/

/-- The `reading_data` dict assembled when the last card of a hand is
revealed: timestamp, reading type, question, target user, and the ordered
card/position/reversed triples. -/
structure Reading where
  timestamp : String
  reading_type : String
  question : Option String
  for_user : Option Nat
  cards : List (String × String × Bool)
deriving Repr, DecidableEq

/-- The mutable fields of a `CardRevealView`: the drawn hand, its position
labels, the per-card reversed flags, the set of revealed indices, and the
metadata carried into the completed-reading projection. -/
structure ViewState where
  cards : List String
  positions : List String
  reversedCards : List Bool
  revealed : Finset Nat
  question : Option String
  reading_type : String
  for_user : Option Nat
deriving DecidableEq

/-- `last_readings[user_id] = reading_data` (overwrites any prior slot). -/
def save_last_reading (uid : Nat) (reading : Reading)
    (lastReadings : Nat → Option Reading) : Nat → Option Reading :=
  Function.update lastReadings uid (some reading)

/-- The projection built in `make_callback` when all cards are revealed:
`{"name": cards[i], "position": positions[i], "reversed": reversed_cards[i]}`
for `i in range(len(cards))`, plus the session metadata (`now` stands for
`datetime.utcnow().isoformat()`). -/
def readingProjection (now : String) (v : ViewState) : Reading :=
  { timestamp := now
    reading_type := v.reading_type
    question := v.question
    for_user := v.for_user
    cards := (List.range v.cards.length).map fun i =>
      (v.cards.getD i "", v.positions.getD i "", v.reversedCards.getD i false) }

/-- Observable outcome of one reveal click. -/
inductive RevealResult where
  | revealedShown
  | renderFailed
  | alreadyRevealed
deriving Repr, DecidableEq

/-- The reveal callback `CardRevealView.make_callback(index)` for the user
`uid` who clicked: an already-revealed index is rejected with an ephemeral
notice and no state change; otherwise the index is added to the revealed
set first, then the composite render is attempted (its success is the
`renderOk` parameter); on success, if every card is now revealed, the
completed-reading projection is saved into the clicking user's
`last_readings` slot; on render failure an error notice is sent and the
slot is untouched. -/
def make_callback (renderOk : Bool) (now : String) (uid : Nat) (index : Nat)
    (v : ViewState) (lastReadings : Nat → Option Reading) :
    RevealResult × ViewState × (Nat → Option Reading) :=
  if index ∈ v.revealed then
    (.alreadyRevealed, v, lastReadings)
  else
    let v1 := { v with revealed := insert index v.revealed }
    if renderOk then
      if v1.revealed.card = v.cards.length then
        (.revealedShown, v1, save_last_reading uid (readingProjection now v1) lastReadings)
      else
        (.revealedShown, v1, lastReadings)
    else
      (.renderFailed, v1, lastReadings)

/-! ## Composite image renderer -/

/-- `get_card_image_url(card_name)`: lowercase, spaces to hyphens, bullet
separators stripped, whitespace trimmed, `.png` appended, under the raw
GitHub content base. -/
def get_card_image_url (card_name : String) : String :=
  "https://raw.githubusercontent.com/Digital-Void-divo/Oracle-of-the-Moon/main/card_images/"
    ++ ((((card_name.toLower).replace " " "-").replace "•" "").trim ++ ".png")

/-- `get_card_back_url()`: the shared card-back image. -/
def get_card_back_url : String :=
  "https://raw.githubusercontent.com/Digital-Void-divo/Oracle-of-the-Moon/main/card_images/card-back.png"

/-- The image resolved for slot `i` of `create_composite_image`: the card's
face (rotated when its reversed flag is set) when `i` is revealed, the
shared card back otherwise.  `fetch url rotate` abstracts
`download_card_image` (cache plus network plus decode); `none` is a fetch
failure or non-image response, and the `Nat` payload abstracts the decoded
bitmap. -/
def slotImage (fetch : String → Bool → Option Nat) (cards : List String)
    (revealed : Finset Nat) (reversedCards : List Bool) (i : Nat) : Option Nat :=
  if i ∈ revealed then
    fetch (get_card_image_url (cards.getD i "")) (reversedCards.getD i false)
  else
    fetch get_card_back_url false

/-- `create_composite_image(cards, revealed_indices, reversed_cards)`: the
per-slot resolution loop returns `None` as soon as any slot's image fails
to resolve, and also when there are no slots at all; otherwise the collected
images are composited, encoded, and (if oversize) re-encoded or downscaled —
that tail is total, so the result is modelled as the resolved slot list. -/
def create_composite_image (fetch : String → Bool → Option Nat)
    (cards : List String) (revealed : Finset Nat) (reversedCards : List Bool) :
    Option (List Nat) :=
  let imgs := (List.range cards.length).map (slotImage fetch cards revealed reversedCards)
  if imgs.any Option.isNone then none
  else
    let collected := imgs.reduceOption
    if collected.isEmpty then none
    else some collected

/-! ## Journal store (`/journal` append path) -/

/-- One entry of the remote `journals.json` list. -/
structure JournalEntry where
  user_id : String
  name : String
  timestamp : String
  reading_type : String
  question : Option String
  for_user : Option Nat
  cards : List (String × String × Bool)
  notes : String
deriving Repr, DecidableEq

/-- The entry the `/journal` command builds from the caller's last reading. -/
def journalEntryOf (uid name notes : String) (reading : Reading) : JournalEntry :=
  { user_id := uid
    name := name
    timestamp := reading.timestamp
    reading_type := reading.reading_type
    question := reading.question
    for_user := reading.for_user
    cards := reading.cards
    notes := notes }

/-- Observable outcome of the `/journal` command.  `saved` records the list
written and the version token (`sha`) the conditional write was issued
under. -/
inductive JournalResult where
  | noRecentReading
  | duplicateName
  | storageUnavailable
  | saved (written : List JournalEntry) (shaUsed : Option String)
deriving Repr, DecidableEq

/-- `save_journals_to_github(journals, sha)`: returns `False` immediately
when no `GITHUB_TOKEN` is configured; otherwise issues the conditional PUT,
whose outcome is the `putOk` parameter. -/
def save_journals_to_github (hasToken putOk : Bool)
    (_journals : List JournalEntry) (_sha : Option String) : Bool :=
  if hasToken then putOk else false

/-- The `/journal name notes` command for user `uid`: reject when the user
has no last reading; fetch `(journals, sha)` from GitHub (passed in as the
fetch result); reject when the user already has an entry of the same name
case-insensitively, leaving the remote list alone; otherwise append the new
entry and write the list back conditioned on the fetched `sha`.  Returns
the outcome and the remote list after the command (unchanged unless the
write succeeded). -/
def journalCmd (hasToken putOk : Bool) (fetched : List JournalEntry)
    (sha : Option String) (uid name notes : String)
    (lastReading : Option Reading) : JournalResult × List JournalEntry :=
  match lastReading with
  | none => (.noRecentReading, fetched)
  | some reading =>
      if fetched.any (fun j => j.user_id == uid && j.name.toLower == name.toLower) then
        (.duplicateName, fetched)
      else
        let written := fetched ++ [journalEntryOf uid name notes reading]
        if save_journals_to_github hasToken putOk written sha then
          (.saved written sha, written)
        else
          (.storageUnavailable, fetched)

/-! ## Concrete states used by witnesses and counterexamples -/

/-- A session that has drawn the whole catalog across two draws: deck and
undo buffer together no longer cover the catalog. -/
def twoDrawState : GuildState :=
  run [Op.draw catalog 5, Op.draw catalog 5] (get_deck_init catalog)

/-- `undo_and_shuffle` (with the identity reordering) applied to
`twoDrawState`. -/
def twoDrawUndoShuffled : GuildState :=
  ((undo_and_shuffle (fun l => l) twoDrawState).getD ([], ⟨[], none⟩)).2

/-- A session that has drawn all 21 cards: the deck is empty while the undo
buffer still holds the last drawn card. -/
def exhaustedState : GuildState :=
  run [Op.draw catalog 5, Op.draw catalog 5, Op.draw catalog 5,
       Op.draw catalog 5, Op.draw catalog 1] (get_deck_init catalog)

/-- A session one card into a reading, with a pending one-card undo buffer. -/
def wClar : GuildState := ⟨["The Magician"], some ["The Fool"]⟩

/-- A session with an exhausted deck but a pending one-card undo buffer. -/
def wEmptyDeck : GuildState := ⟨[], some ["The Fool"]⟩

/-- A session one card into a reading, used to exercise undo-and-shuffle. -/
def wShufState : GuildState := ⟨["The Magician"], some ["The Fool"]⟩

/-- A one-card hand with nothing revealed yet. -/
def oneCardView : ViewState :=
  { cards := ["The Fool"]
    positions := ["Card 1"]
    reversedCards := [false]
    revealed := ∅
    question := none
    reading_type := "draw"
    for_user := none }

/-- A one-card hand whose single card is already revealed. -/
def revealedView : ViewState :=
  { cards := ["The Fool"]
    positions := ["Card 1"]
    reversedCards := [false]
    revealed := {0}
    question := none
    reading_type := "draw"
    for_user := none }

/-- The empty `last_readings` map. -/
def noReadings : Nat → Option Reading := fun _ => none

/-- A completed reading used to exercise the journal command. -/
def sampleReading : Reading :=
  { timestamp := "2024-01-01T00:00:00"
    reading_type := "draw"
    question := none
    for_user := none
    cards := [("The Fool", "Card 1", false)] }

/-! ## Theorems -/

theorem catalog_length : catalog.length = 21 := rfl

theorem catalog_nodup : catalog.Nodup := by decide

lemma le_catalog_of_perm_catalog {l : List String} (h : l.Perm catalog) :
    (↑l : Multiset String) ≤ (↑catalog : Multiset String) :=
  le_of_eq (Multiset.coe_eq_coe.mpr h)

lemma deckInv_of_le {s : GuildState}
    (h : (↑(s.deck ++ undoList s) : Multiset String) ≤ (↑catalog : Multiset String)) :
    deckInv s :=
  ⟨Multiset.coe_nodup.mp
      (Multiset.nodup_of_le h (Multiset.coe_nodup.mpr catalog_nodup)), h⟩

lemma deck_le_of_deckInv {s : GuildState} (hs : deckInv s) :
    (↑s.deck : Multiset String) ≤ (↑catalog : Multiset String) := by
  refine le_trans ?_ hs.2
  rw [← Multiset.coe_add]
  exact Multiset.le_add_right _ _

lemma draw_eq_of_ok (perm : List String) (count : Nat) (s : GuildState)
    (h1 : ¬ (count < 1 ∨ 5 < count)) :
    draw perm count s =
      if s.deck.length < count
      then some (perm.take count, ⟨perm.drop count, some (perm.take count)⟩, true)
      else some (s.deck.take count, ⟨s.deck.drop count, some (s.deck.take count)⟩, false) := by
  by_cases h : s.deck.length < count <;> simp [draw, h1, h] <;> omega

lemma pull_clarifier_cons (perm : List String) (c : String) (rest : List String)
    (undo : Option (List String)) :
    pull_clarifier perm ⟨c :: rest, undo⟩ =
      some (c, ⟨rest, some (if can_undo ⟨c :: rest, undo⟩
          then undoList ⟨c :: rest, undo⟩ ++ [c] else [c])⟩, false) := by
  have hlen : ¬ ((c :: rest).length < 1) := by simp
  by_cases hcu : can_undo (⟨c :: rest, undo⟩ : GuildState) = true
  · have hcu' : can_undo (⟨rest, undo⟩ : GuildState) = true := hcu
    simp [pull_clarifier, hlen, hcu, hcu', undoList]
  · have hcu' : can_undo (⟨rest, undo⟩ : GuildState) = false := by
      simpa using hcu
    simp [pull_clarifier, hlen, hcu, hcu', save_undo_state]

lemma pull_clarifier_nil (perm : List String) (c : String) (rest : List String)
    (hp : perm = c :: rest) (undo : Option (List String)) :
    pull_clarifier perm ⟨[], undo⟩ = some (c, ⟨rest, some [c]⟩, true) := by
  have hcu : can_undo (⟨rest, (none : Option (List String))⟩ : GuildState) = false := rfl
  simp [pull_clarifier, hp, hcu, save_undo_state]

lemma perm_snoc (c : String) (l : List String) : (l ++ [c]).Perm (c :: l) :=
  List.perm_append_comm.trans (by simp)

lemma deckInv_step {op : Op} {s : GuildState} (hv : op.Valid) (hs : deckInv s) :
    deckInv (step op s) := by
  cases op with
  | getDeck => exact hs
  | shuffle perm =>
      exact deckInv_of_le
        (by simpa [step, shuffle_deck, undoList] using le_catalog_of_perm_catalog hv)
  | draw perm count =>
      by_cases hrej : count < 1 ∨ 5 < count
      · have hnone : Oracle.draw perm count s = none := by
          simp only [Oracle.draw]
          rw [if_pos hrej]
        simp only [step, hnone]
        exact hs
      · have hv' : perm.Perm catalog := hv
        rw [step, draw_eq_of_ok perm count s hrej]
        by_cases hshort : s.deck.length < count
        · rw [if_pos hshort]
          refine deckInv_of_le ?_
          have h1 : (perm.drop count ++ perm.take count).Perm perm :=
            List.perm_append_comm.trans (by rw [List.take_append_drop])
          exact le_trans (le_of_eq (Multiset.coe_eq_coe.mpr
            (by simpa [undoList] using h1)))
            (le_catalog_of_perm_catalog hv')
        · rw [if_neg hshort]
          refine deckInv_of_le ?_
          have h1 : (s.deck.drop count ++ s.deck.take count).Perm s.deck :=
            List.perm_append_comm.trans (by rw [List.take_append_drop])
          exact le_trans (le_of_eq (Multiset.coe_eq_coe.mpr
            (by simpa [undoList] using h1)))
            (deck_le_of_deckInv hs)
  | drawClarifier perm =>
      have hv' : perm.Perm catalog := hv
      obtain ⟨deck, undo⟩ := s
      cases deck with
      | nil =>
          cases hp : perm with
          | nil =>
              have hnone : pull_clarifier ([] : List String) ⟨[], undo⟩ = none := by
                simp [pull_clarifier]
              simp only [step, hnone]
              exact hs
          | cons c rest =>
              rw [step, pull_clarifier_nil (c :: rest) c rest rfl undo]
              refine deckInv_of_le ?_
              have h1 : (rest ++ [c]).Perm perm := by
                rw [hp]; exact perm_snoc c rest
              exact le_trans (le_of_eq (Multiset.coe_eq_coe.mpr
                (by simpa [undoList] using h1)))
                (le_catalog_of_perm_catalog hv')
      | cons c rest =>
          rw [step, pull_clarifier_cons perm c rest undo]
          by_cases hcu : can_undo (⟨c :: rest, undo⟩ : GuildState) = true
          · rw [if_pos hcu]
            refine deckInv_of_le ?_
            have h1 : (rest ++ (undoList ⟨c :: rest, undo⟩ ++ [c])).Perm
                ((c :: rest) ++ undoList ⟨c :: rest, undo⟩) := by
              have e1 : rest ++ (undoList (⟨c :: rest, undo⟩ : GuildState) ++ [c])
                  = (rest ++ undoList ⟨c :: rest, undo⟩) ++ [c] :=
                (List.append_assoc _ _ _).symm
              have e2 : (c :: rest) ++ undoList (⟨c :: rest, undo⟩ : GuildState)
                  = [c] ++ (rest ++ undoList ⟨c :: rest, undo⟩) := by simp
              rw [e1, e2]
              exact List.perm_append_comm
            exact le_trans (le_of_eq (Multiset.coe_eq_coe.mpr
              (by simpa [undoList] using h1))) hs.2
          · rw [if_neg hcu]
            refine deckInv_of_le ?_
            exact le_trans (le_of_eq (Multiset.coe_eq_coe.mpr
              (by simp only [undoList, Option.getD_some]; exact perm_snoc c rest)))
              (deck_le_of_deckInv hs)
  | undo =>
      by_cases hcu : can_undo s = true
      · rw [step, undo_draw, if_pos hcu]
        refine deckInv_of_le ?_
        have h1 : ((undoList s ++ s.deck) ++ []).Perm (s.deck ++ undoList s) := by
          simpa using List.perm_append_comm
        exact le_trans (le_of_eq (Multiset.coe_eq_coe.mpr
          (by simpa [undoList] using h1))) hs.2
      · rw [step, undo_draw, if_neg hcu]
        exact hs
  | undoAndShuffle shuf =>
      have hv' : ∀ l, (shuf l).Perm l := hv
      by_cases hcu : can_undo s = true
      · rw [step, undo_and_shuffle, if_pos hcu]
        refine deckInv_of_le ?_
        have h1 : ((shuf ((undo_draw s).2).deck) ++ []).Perm (s.deck ++ undoList s) := by
          rw [undo_draw, if_pos hcu]
          simpa using (hv' _).trans List.perm_append_comm
        exact le_trans (le_of_eq (Multiset.coe_eq_coe.mpr
          (by simpa [undoList, undo_draw, hcu] using h1))) hs.2
      · rw [step, undo_and_shuffle, if_neg hcu]
        exact hs

/-- C1 (amended): after any sequence of deck-manager operations with
well-formed randomness, starting from a freshly created deck, the deck
together with the undo buffer is duplicate-free and is contained in the
full catalog as a multiset.  (Equality with the catalog does not hold in
general: the drawn hand is not tracked separately from the undo buffer,
and a draw over a pending buffer discards those cards from both.) -/
theorem deck_undo_invariant (ops : List Op) (hops : ∀ op ∈ ops, op.Valid)
    (perm : List String) (hperm : perm.Perm catalog) :
    deckInv (run ops (get_deck_init perm)) := by
  have hinit : deckInv (get_deck_init perm) :=
    deckInv_of_le
      (by simpa [get_deck_init, undoList] using le_catalog_of_perm_catalog hperm)
  suffices h : ∀ (l : List Op), (∀ op ∈ l, op.Valid) →
      ∀ s : GuildState, deckInv s → deckInv (run l s) from h ops hops _ hinit
  intro l
  induction l with
  | nil => exact fun _ s hs => hs
  | cons op rest ih =>
      intro hl s hs
      have h1 : Op.Valid op := hl op (by simp)
      have h2 : ∀ o ∈ rest, o.Valid := fun o ho => hl o (by simp [ho])
      exact ih h2 _ (deckInv_step h1 hs)

/-- Witness for `deck_undo_invariant`: a draw, a clarifier, and an
undo-and-shuffle from a fresh catalog-ordered deck. -/
theorem deck_undo_invariant_witness :
    deckInv (run [Op.draw catalog 2, Op.drawClarifier catalog,
      Op.undoAndShuffle (fun l => l)] (get_deck_init catalog)) := by
  refine deck_undo_invariant _ ?_ catalog (List.Perm.refl catalog)
  intro op hop
  simp only [List.mem_cons, List.not_mem_nil, or_false] at hop
  rcases hop with h | h | h
  · rw [h]; exact List.Perm.refl catalog
  · rw [h]; exact List.Perm.refl catalog
  · rw [h]; exact fun l => List.Perm.refl l

/-- C1 fails as literally stated: immediately after a draw, the drawn hand
and the undo buffer are the same cards, so the three-way multiset union of
deck, drawn cards, and undo buffer counts them twice and cannot equal the
catalog.  Concretely, drawing one card from a fresh catalog-ordered deck
draws `"The Fool"`, and the union holds it with multiplicity 2. -/
theorem deck_drawn_undo_union_counterexample :
    draw catalog 1 (get_deck_init catalog) =
      some (["The Fool"], ⟨catalog.drop 1, some ["The Fool"]⟩, false)
    ∧ ¬ ((↑(catalog.drop 1) + ↑(["The Fool"] : List String)
          + ↑(["The Fool"] : List String) : Multiset String)
        = (↑catalog : Multiset String)) := by
  constructor
  · rfl
  · intro h
    have hc := congrArg (Multiset.count "The Fool") h
    simp only [Multiset.count_add, Multiset.coe_count] at hc
    revert hc
    decide

/-- C2: a draw of `count ∈ 1..5` from a deck holding at least `count` cards
pops the first `count` cards with no reshuffle and stores them as the undo
buffer; `undo_draw` on the resulting state returns exactly those cards,
restores the deck to its pre-draw order, and clears the buffer. -/
theorem draw_then_undo_roundtrip (perm : List String) (count : Nat)
    (hc1 : 1 ≤ count) (hc5 : count ≤ 5) (s : GuildState)
    (hlen : count ≤ s.deck.length) :
    draw perm count s =
      some (s.deck.take count, ⟨s.deck.drop count, some (s.deck.take count)⟩, false)
    ∧ undo_draw ⟨s.deck.drop count, some (s.deck.take count)⟩ =
      (s.deck.take count, ⟨s.deck, none⟩) := by
  have hne : ¬ (count < 1 ∨ 5 < count) := by omega
  have hge : ¬ (s.deck.length < count) := by omega
  have hdeck : s.deck ≠ [] := by
    intro h
    rw [h] at hlen
    simp at hlen
    omega
  refine ⟨by simp [draw, hne, hge]; omega, ?_⟩
  have hpos : 0 < (s.deck.take count).length := by
    rw [List.length_take]; omega
  simp [undo_draw, can_undo, undoList, hpos, hdeck]
  omega

/-- Witness for `draw_then_undo_roundtrip`: drawing two cards from a fresh
catalog-ordered deck and undoing restores the full deck. -/
theorem draw_then_undo_roundtrip_witness :
    draw catalog 2 (get_deck_init catalog) =
      some (catalog.take 2, ⟨catalog.drop 2, some (catalog.take 2)⟩, false)
    ∧ undo_draw ⟨catalog.drop 2, some (catalog.take 2)⟩ =
      (catalog.take 2, ⟨catalog, none⟩) :=
  draw_then_undo_roundtrip catalog 2 (by omega) (by omega)
    (get_deck_init catalog) (by decide)

/-- C5: a draw of `count ∈ 1..5` from a deck holding fewer than `count`
cards performs exactly one implicit reshuffle, reports it (`true` flag), and
then succeeds: `count` cards come off the fresh permutation's front and the
remaining deck keeps that permutation's order; with at least `count` cards
in the deck no reshuffle happens (`false` flag) and the deck's own front is
drawn, the remainder keeping its order. -/
theorem draw_reshuffles_iff_short (perm : List String) (hperm : perm.Perm catalog)
    (count : Nat) (hc1 : 1 ≤ count) (hc5 : count ≤ 5) (s : GuildState) :
    (s.deck.length < count →
      draw perm count s =
        some (perm.take count, ⟨perm.drop count, some (perm.take count)⟩, true)
      ∧ (perm.take count).length = count)
    ∧ (count ≤ s.deck.length →
      draw perm count s =
        some (s.deck.take count, ⟨s.deck.drop count, some (s.deck.take count)⟩, false)) := by
  have hne : ¬ (count < 1 ∨ 5 < count) := by omega
  have hplen : perm.length = 21 := by
    rw [hperm.length_eq, catalog_length]
  constructor
  · intro hshort
    refine ⟨by simp [draw, hne, hshort]; omega, ?_⟩
    rw [List.length_take, hplen]; omega
  · intro hge
    have hlt : ¬ (s.deck.length < count) := by omega
    simp [draw, hne, hlt]
    omega

/-- Witness for `draw_reshuffles_iff_short`: a one-card deck forces a
reshuffle for a two-card draw, and a fresh full deck draws without one. -/
theorem draw_reshuffles_iff_short_witness :
    (draw catalog 2 (⟨["The Fool"], none⟩ : GuildState) =
      some (catalog.take 2, ⟨catalog.drop 2, some (catalog.take 2)⟩, true)
      ∧ (catalog.take 2).length = 2)
    ∧ draw catalog 2 (get_deck_init catalog) =
      some (catalog.take 2, ⟨catalog.drop 2, some (catalog.take 2)⟩, false) :=
  ⟨(draw_reshuffles_iff_short catalog (List.Perm.refl catalog) 2 (by omega) (by omega)
      (⟨["The Fool"], none⟩ : GuildState)).1 (by decide),
   (draw_reshuffles_iff_short catalog (List.Perm.refl catalog) 2 (by omega) (by omega)
      (get_deck_init catalog)).2 (by decide)⟩

/-- C6 fails as stated: `/undo_and_shuffle` shuffles the existing deck in
place (`random.shuffle(deck)`), it does not rebuild a full-catalog deck.
After two consecutive 5-card draws the first draw's cards are gone from
both deck and undo buffer; undo-and-shuffle then leaves a 16-card deck,
which is not a permutation of the 21-card catalog. -/
theorem undo_and_shuffle_counterexample :
    (undo_and_shuffle (fun l => l) twoDrawState).isSome = true
    ∧ twoDrawUndoShuffled.deck.length = 16
    ∧ ¬ twoDrawUndoShuffled.deck.Perm catalog := by
  refine ⟨rfl, rfl, ?_⟩
  intro h
  have hlen := h.length_eq
  rw [catalog_length] at hlen
  rw [show twoDrawUndoShuffled.deck.length = 16 from rfl] at hlen
  exact absurd hlen (by decide)

/-- C6 (amended): on a session with a non-empty undo buffer,
`undo_and_shuffle` performs the undo (returning the buffered cards and
clearing the buffer) and then shuffles the resulting deck in place: the
final deck is a permutation of the undo buffer prepended to the prior
deck — a full-catalog permutation only when those together comprise the
whole catalog. -/
theorem undo_and_shuffle_spec (shuf : List String → List String)
    (hshuf : ∀ l, (shuf l).Perm l) (s : GuildState) (h : can_undo s = true) :
    undo_and_shuffle shuf s = some (undoList s, ⟨shuf (undoList s ++ s.deck), none⟩)
    ∧ (shuf (undoList s ++ s.deck)).Perm (undoList s ++ s.deck) := by
  refine ⟨?_, hshuf _⟩
  simp [undo_and_shuffle, undo_draw, h]

/-- Witness for `undo_and_shuffle_spec` at a concrete session with a
one-card buffer and the identity reordering. -/
theorem undo_and_shuffle_spec_witness :
    undo_and_shuffle (fun l => l) wShufState =
      some (undoList wShufState, ⟨undoList wShufState ++ wShufState.deck, none⟩)
    ∧ (undoList wShufState ++ wShufState.deck).Perm
        (undoList wShufState ++ wShufState.deck) :=
  undo_and_shuffle_spec (fun l => l) (fun l => List.Perm.refl l) wShufState rfl

/-- C7 fails as stated: when the deck is exhausted, the implicit shuffle
inside `pull_clarifier` deletes the undo buffer before the clarifier is
drawn, so the clarifier does NOT get appended to the existing buffer.
Concretely, after drawing all 21 cards the undo buffer holds
`["The World"]`; pulling a clarifier reshuffles and leaves the buffer as
`["The Fool"]` alone rather than `["The World", "The Fool"]`. -/
theorem clarifier_append_counterexample :
    can_undo exhaustedState = true
    ∧ undoList exhaustedState = ["The World"]
    ∧ (pull_clarifier catalog exhaustedState).map (fun r => r.2.1.undo) =
        some (some ["The Fool"])
    ∧ (pull_clarifier catalog exhaustedState).map (fun r => r.2.1.undo) ≠
        some (some (undoList exhaustedState ++ ["The Fool"])) := by
  refine ⟨rfl, rfl, rfl, ?_⟩
  intro h
  rw [show (pull_clarifier catalog exhaustedState).map (fun r => r.2.1.undo) =
        some (some ["The Fool"]) from rfl,
      show undoList exhaustedState = ["The World"] from rfl] at h
  exact absurd h (by decide)

/-- C7 (amended): `pull_clarifier` draws exactly one card under the same
reshuffle-on-exhaustion rule; when the deck is non-empty it appends the
card to the existing non-empty undo buffer (otherwise starts a new
buffer), so that a single subsequent undo returns the entire multi-step
reading including the clarifier; when the deck is exhausted, the implicit
shuffle clears the buffer first, so the clarifier starts a fresh buffer
holding only itself. -/
theorem clarifier_spec (perm : List String) (s : GuildState) :
    (∀ c rest, s.deck = c :: rest →
      pull_clarifier perm s =
        some (c, ⟨rest, some (if can_undo s then undoList s ++ [c] else [c])⟩, false)
      ∧ (can_undo s = true →
          undo_draw ⟨rest, some (undoList s ++ [c])⟩ =
            (undoList s ++ [c], ⟨(undoList s ++ [c]) ++ rest, none⟩)))
    ∧ (s.deck = [] → ∀ c rest, perm = c :: rest →
        pull_clarifier perm s = some (c, ⟨rest, some [c]⟩, true)) := by
  obtain ⟨deck, undo⟩ := s
  constructor
  · intro c rest hdeck
    simp only at hdeck
    subst hdeck
    refine ⟨pull_clarifier_cons perm c rest undo, ?_⟩
    intro _
    have hpos : 0 < (undoList (⟨c :: rest, undo⟩ : GuildState) ++ [c]).length := by
      simp
    simp [undo_draw, can_undo, undoList, hpos]
  · intro hdeck c rest hp
    simp only at hdeck
    subst hdeck
    exact pull_clarifier_nil perm c rest hp undo

/-- Witness for `clarifier_spec`: both the append branch (non-empty deck,
pending buffer) and the reshuffle branch (empty deck). -/
theorem clarifier_spec_witness :
    (pull_clarifier catalog wClar =
      some ("The Magician", ⟨[], some (if can_undo wClar
          then undoList wClar ++ ["The Magician"] else ["The Magician"])⟩, false)
      ∧ (can_undo wClar = true →
          undo_draw ⟨[], some (undoList wClar ++ ["The Magician"])⟩ =
            (undoList wClar ++ ["The Magician"],
             ⟨(undoList wClar ++ ["The Magician"]) ++ [], none⟩)))
    ∧ pull_clarifier catalog wEmptyDeck =
        some ("The Fool", ⟨catalog.tail, some ["The Fool"]⟩, true) :=
  ⟨(clarifier_spec catalog wClar).1 "The Magician" [] rfl,
   (clarifier_spec catalog wEmptyDeck).2 rfl "The Fool" catalog.tail rfl⟩

/-- C3: a reveal event targeting an index already in the revealed set is
rejected with `alreadyRevealed` and changes nothing: the view (revealed
set), the `last_readings` slot map, and the rendered state are returned
untouched.  Moreover revealing the same index twice is idempotent: after
any reveal attempt on an index, a second attempt on that index is always
rejected with no state change. -/
theorem reveal_already_revealed_noop (renderOk renderOk2 : Bool) (now now2 : String)
    (uid uid2 index : Nat) (v : ViewState) (lastReadings : Nat → Option Reading) :
    (index ∈ v.revealed →
      make_callback renderOk now uid index v lastReadings =
        (.alreadyRevealed, v, lastReadings))
    ∧ make_callback renderOk2 now2 uid2 index
        (make_callback renderOk now uid index v lastReadings).2.1
        (make_callback renderOk now uid index v lastReadings).2.2 =
      (.alreadyRevealed,
        (make_callback renderOk now uid index v lastReadings).2.1,
        (make_callback renderOk now uid index v lastReadings).2.2) := by
  have hrej : ∀ (ro : Bool) (n : String) (u : Nat) (v' : ViewState)
      (lr' : Nat → Option Reading), index ∈ v'.revealed →
      make_callback ro n u index v' lr' = (.alreadyRevealed, v', lr') := by
    intro ro n u v' lr' hm
    simp [make_callback, hm]
  refine ⟨hrej _ _ _ _ _, ?_⟩
  by_cases h : index ∈ v.revealed
  · rw [hrej renderOk now uid v lastReadings h]
    exact hrej _ _ _ _ _ h
  · have hmem : index ∈ (make_callback renderOk now uid index v lastReadings).2.1.revealed := by
      simp only [make_callback, if_neg h]
      split_ifs <;> simp
    exact hrej _ _ _ _ _ hmem

/-- Witness for `reveal_already_revealed_noop`: re-revealing the already
revealed single card of a one-card hand is a rejected no-op. -/
theorem reveal_already_revealed_noop_witness :
    make_callback true "ts" 1 0 revealedView noReadings =
      (.alreadyRevealed, revealedView, noReadings) :=
  (reveal_already_revealed_noop true true "ts" "ts" 1 1 0 revealedView
    noReadings).1 (by decide)

lemma revealed_full {v : ViewState} (hsub : ∀ j ∈ v.revealed, j < v.cards.length)
    (hcard : v.revealed.card = v.cards.length) :
    ∀ j, j < v.cards.length → j ∈ v.revealed := by
  have hss : v.revealed ⊆ Finset.range v.cards.length := fun j hj =>
    Finset.mem_range.mpr (hsub j hj)
  have heq : v.revealed = Finset.range v.cards.length :=
    Finset.eq_of_subset_of_card_le hss
      (by rw [hcard, Finset.card_range])
  intro j hj
  rw [heq]
  exact Finset.mem_range.mpr hj

/-- C4: the completed-reading projection is stored exactly when a fresh
index is revealed, the render succeeds, and the revealed count then equals
the card count (first conjunct characterises the output slot map
completely: `save_last_reading` overwrites the clicking user's single
slot); the slot map changes only when the view is fully revealed (never
before); and once every card is revealed, any further event with an
in-range index is rejected without touching view or slot map (never more
than once). -/
theorem completion_exactly_on_full_reveal (renderOk : Bool) (now : String)
    (uid index : Nat) (v : ViewState) (lastReadings : Nat → Option Reading)
    (hsub : ∀ j ∈ v.revealed, j < v.cards.length) (hidx : index < v.cards.length) :
    ((make_callback renderOk now uid index v lastReadings).2.2 =
      if index ∉ v.revealed ∧ renderOk = true
          ∧ (insert index v.revealed).card = v.cards.length
      then save_last_reading uid
          (readingProjection now { v with revealed := insert index v.revealed })
          lastReadings
      else lastReadings)
    ∧ ((make_callback renderOk now uid index v lastReadings).2.2 ≠ lastReadings →
        (make_callback renderOk now uid index v lastReadings).2.1.revealed.card
          = v.cards.length)
    ∧ (v.revealed.card = v.cards.length →
        make_callback renderOk now uid index v lastReadings =
          (.alreadyRevealed, v, lastReadings)) := by
  have key : (make_callback renderOk now uid index v lastReadings).2.2 =
      if index ∉ v.revealed ∧ renderOk = true
          ∧ (insert index v.revealed).card = v.cards.length
      then save_last_reading uid
          (readingProjection now { v with revealed := insert index v.revealed })
          lastReadings
      else lastReadings := by
    by_cases h : index ∈ v.revealed
    · simp [make_callback, h]
    · cases renderOk with
      | false => simp [make_callback, h]
      | true =>
          by_cases hc : v.revealed.card + 1 = v.cards.length
          · simp [make_callback, h, hc, Finset.card_insert_of_not_mem]
          · simp [make_callback, h, hc, Finset.card_insert_of_not_mem]
  refine ⟨key, ?_, ?_⟩
  · intro hne
    rw [key] at hne
    by_cases hcond : index ∉ v.revealed ∧ renderOk = true
        ∧ (insert index v.revealed).card = v.cards.length
    · have hv1 : (make_callback renderOk now uid index v lastReadings).2.1 =
          { v with revealed := insert index v.revealed } := by
        obtain ⟨h1, h2, h3⟩ := hcond
        simp [make_callback, h1, h2, h3]
      rw [hv1]
      exact hcond.2.2
    · rw [if_neg hcond] at hne
      exact absurd rfl hne
  · intro hfull
    have hmem : index ∈ v.revealed := revealed_full hsub hfull index hidx
    simp [make_callback, hmem]

/-- Witness for `completion_exactly_on_full_reveal`: revealing the lone
card of a one-card hand with a successful render stores the projection in
the clicking user's slot. -/
theorem completion_exactly_on_full_reveal_witness :
    (make_callback true "ts" 7 0 oneCardView noReadings).2.2 7 =
      some (readingProjection "ts"
        { oneCardView with revealed := insert 0 oneCardView.revealed }) := by
  have h := (completion_exactly_on_full_reveal true "ts" 7 0 oneCardView noReadings
    (by intro j hj; simp [oneCardView] at hj) (by decide)).1
  rw [h, if_pos (by refine ⟨by decide, rfl, by decide⟩)]
  simp [save_last_reading]

/-- C10: on the reveal that would complete the hand, the index is added to
the revealed set before the render is attempted, so when the render fails
the event reports `renderFailed`, the index stays revealed, and no
projection is saved; every subsequent event with an in-range index —
including a retry of the same index — is rejected as already revealed with
the slot map untouched, so this hand's completion can never be recorded. -/
theorem render_failure_blocks_completion (now : String) (uid index : Nat)
    (v : ViewState) (lastReadings : Nat → Option Reading)
    (hnot : index ∉ v.revealed) (hidx : index < v.cards.length)
    (hsub : ∀ j ∈ v.revealed, j < v.cards.length)
    (hcomp : (insert index v.revealed).card = v.cards.length) :
    make_callback false now uid index v lastReadings =
      (.renderFailed, { v with revealed := insert index v.revealed }, lastReadings)
    ∧ (∀ (renderOk2 : Bool) (now2 : String) (uid2 j : Nat), j < v.cards.length →
        make_callback renderOk2 now2 uid2 j
          { v with revealed := insert index v.revealed } lastReadings =
          (.alreadyRevealed, { v with revealed := insert index v.revealed },
           lastReadings)) := by
  constructor
  · simp [make_callback, hnot]
  · intro renderOk2 now2 uid2 j hj
    have hsub' : ∀ k ∈ (insert index v.revealed : Finset Nat), k < v.cards.length := by
      intro k hk
      rcases Finset.mem_insert.mp hk with h | h
      · rw [h]; exact hidx
      · exact hsub k h
    have hmem : j ∈ ({ v with revealed := insert index v.revealed } : ViewState).revealed :=
      revealed_full (v := { v with revealed := insert index v.revealed })
        hsub' hcomp j hj
    simp [make_callback, hmem]

/-- Witness for `render_failure_blocks_completion`: a failed render on the
completing reveal of a one-card hand, then a rejected retry. -/
theorem render_failure_blocks_completion_witness :
    make_callback false "ts" 7 0 oneCardView noReadings =
      (.renderFailed, { oneCardView with revealed := insert 0 oneCardView.revealed },
       noReadings)
    ∧ make_callback true "ts" 8 0
        { oneCardView with revealed := insert 0 oneCardView.revealed } noReadings =
      (.alreadyRevealed, { oneCardView with revealed := insert 0 oneCardView.revealed },
       noReadings) := by
  have h := render_failure_blocks_completion "ts" 7 0 oneCardView noReadings
    (by decide) (by decide) (by intro j hj; simp [oneCardView] at hj) (by decide)
  exact ⟨h.1, h.2 true "ts" 8 0 (by decide)⟩

/-- C8: the composite render is all-or-nothing — if any slot's image fails
to resolve (fetch failure or non-image response), the whole render returns
`none` and no partial composite is produced; conversely a composite is
returned only when every slot's image resolved successfully. -/
theorem render_all_or_nothing (fetch : String → Bool → Option Nat)
    (cards : List String) (revealed : Finset Nat) (reversedCards : List Bool) :
    ((∃ i, i < cards.length ∧ slotImage fetch cards revealed reversedCards i = none) →
      create_composite_image fetch cards revealed reversedCards = none)
    ∧ (∀ r, create_composite_image fetch cards revealed reversedCards = some r →
        ∀ i, i < cards.length →
          (slotImage fetch cards revealed reversedCards i).isSome = true) := by
  have hany : ∀ i, i < cards.length →
      slotImage fetch cards revealed reversedCards i = none →
      ((List.range cards.length).map
        (slotImage fetch cards revealed reversedCards)).any Option.isNone = true := by
    intro i hi hnone
    refine List.any_eq_true.mpr ⟨none, ?_, rfl⟩
    rw [← hnone]
    exact List.mem_map_of_mem _ (List.mem_range.mpr hi)
  constructor
  · rintro ⟨i, hi, hnone⟩
    simp [create_composite_image, hany i hi hnone]
  · intro r hr i hi
    by_contra hno
    have hnone : slotImage fetch cards revealed reversedCards i = none := by
      cases hslot : slotImage fetch cards revealed reversedCards i with
      | none => rfl
      | some x => rw [hslot] at hno; simp at hno
    rw [create_composite_image] at hr
    simp [hany i hi hnone] at hr

/-- Witness for `render_all_or_nothing`: a failing fetch kills a one-card
render, and a succeeding fetch resolves its slot. -/
theorem render_all_or_nothing_witness :
    create_composite_image (fun _ _ => none) ["The Fool"] ∅ [false] = none
    ∧ (slotImage (fun _ _ => (some 7 : Option Nat)) ["The Fool"] ∅ [false] 0).isSome
        = true :=
  ⟨(render_all_or_nothing (fun _ _ => none) ["The Fool"] ∅ [false]).1
      ⟨0, by decide, rfl⟩,
   (render_all_or_nothing (fun _ _ => (some 7 : Option Nat)) ["The Fool"] ∅ [false]).2
      [7] rfl 0 (by decide)⟩

/-- C9: given a completed reading to journal, the `/journal` command is
rejected as a duplicate — leaving the remote list unchanged — exactly when
the same owner already has an entry of the same name case-insensitively;
with no duplicate and a configured write credential the entry is appended
and written back conditioned on the fetched version token; with no
credential the write fails and the remote list is unchanged. -/
theorem journal_append_spec (hasToken putOk : Bool) (fetched : List JournalEntry)
    (sha : Option String) (uid name notes : String) (reading : Reading) :
    (((journalCmd hasToken putOk fetched sha uid name notes (some reading)).1
          = .duplicateName
        ∧ (journalCmd hasToken putOk fetched sha uid name notes (some reading)).2
          = fetched)
      ↔ fetched.any (fun j => j.user_id == uid && j.name.toLower == name.toLower)
          = true)
    ∧ (fetched.any (fun j => j.user_id == uid && j.name.toLower == name.toLower)
          = false → hasToken = true → putOk = true →
        journalCmd hasToken putOk fetched sha uid name notes (some reading) =
          (.saved (fetched ++ [journalEntryOf uid name notes reading]) sha,
           fetched ++ [journalEntryOf uid name notes reading]))
    ∧ (fetched.any (fun j => j.user_id == uid && j.name.toLower == name.toLower)
          = false → hasToken = false →
        journalCmd hasToken putOk fetched sha uid name notes (some reading) =
          (.storageUnavailable, fetched)) := by
  by_cases hdup : fetched.any
      (fun j => j.user_id == uid && j.name.toLower == name.toLower) = true
  · refine ⟨⟨fun _ => hdup, fun _ => ?_⟩, fun hf => absurd hdup (by simp [hf]),
      fun hf => absurd hdup (by simp [hf])⟩
    simp [journalCmd, hdup]
  · have hf : fetched.any
        (fun j => j.user_id == uid && j.name.toLower == name.toLower) = false := by
      simpa using hdup
    refine ⟨⟨fun hcontra => ?_, fun h => absurd h hdup⟩, fun _ hT hP => ?_, fun _ hT => ?_⟩
    · rcases hcontra with ⟨h1, _⟩
      cases hhh : save_journals_to_github hasToken putOk
          (fetched ++ [journalEntryOf uid name notes reading]) sha <;>
        simp [journalCmd, hf, hhh] at h1
    · simp [journalCmd, hf, save_journals_to_github, hT, hP]
    · simp [journalCmd, hf, save_journals_to_github, hT]

/-- Witness for `journal_append_spec`: appending to an empty remote list
with a credential succeeds and writes the singleton list under the fetched
token. -/
theorem journal_append_spec_witness :
    journalCmd true true [] none "1" "morning" "notes" (some sampleReading) =
      (.saved ([] ++ [journalEntryOf "1" "morning" "notes" sampleReading]) none,
       [] ++ [journalEntryOf "1" "morning" "notes" sampleReading]) :=
  (journal_append_spec true true [] none "1" "morning" "notes" sampleReading).2.1
    rfl rfl rfl

end Oracle
